import Mathlib

/-!
Shallow embedding of the proHeader editor extension (two source variants:
the legacy `extension.js` and the newer variant with auto-insertion,
referred to below as the "new" variant).

Modelling conventions:
  * JS strings are Lean `String`s; JS `undefined` and `''` are both falsy and
    are treated identically by every use site in this code base, so both are
    modelled as the empty string `""`.
  * `a || b` on strings is `jsOr a b`.
  * `text.split('\n')` splits at every separator character; it is modelled by
    `splitSeps` at the `List Char` level and `splitLines` on `String`.
  * `lines.join('\n')` is `joinLines`.
  * Host-editor effects (input boxes, information messages, text edits,
    configuration writes) are modelled as an explicit event trace.
-/

/-- JS `a || b` for strings: `''` (and `undefined`, modelled as `''`) is falsy. -/
def jsOr (a b : String) : String :=
  if a = "" then b else a

/-- JS `lines.join('\n')`. -/
def joinLines : List String → String
  | [] => ""
  | [l] => l
  | l :: ls => l ++ "\n" ++ joinLines ls

/-- Split a character list at every separator character (JS
`String.prototype.split` semantics: `"a,,b"` gives three pieces, `""` gives
one empty piece). -/
def splitSeps (p : Char → Bool) : List Char → List (List Char)
  | [] => [[]]
  | c :: cs =>
    let r := splitSeps p cs
    if p c then [] :: r else (c :: r.headI) :: r.tail

/-- JS `text.split('\n')`. -/
def splitLines (t : String) : List String :=
  (splitSeps (fun c => c = '\n') t.data).map (fun l => String.mk l)

/-- JS `s.trim()`: strip leading and trailing whitespace (modelled at the
character level so that it evaluates in the kernel). -/
def jsTrim (s : String) : String :=
  String.mk
    (((s.data.dropWhile (fun c => c.isWhitespace)).reverse.dropWhile
      (fun c => c.isWhitespace)).reverse)

/-- Substring test (used to model `regex.test` for literal patterns). -/
def containsSub (s pat : String) : Bool :=
  decide (pat.data <:+: s.data)

/-- Boolean prefix test at the character level. -/
def strHasPre (pat s : String) : Bool :=
  decide (pat.data <+: s.data)

/-- Boolean suffix test at the character level. -/
def strHasSuf (pat s : String) : Bool :=
  decide (pat.data <:+ s.data)

/- section: shared pure template functions -/

/-- Top border of the comment block (both variants): the 46-character
literal of `=` signs the source writes out. -/
def eqBorderTop : String := String.mk (List.replicate 46 '=')

/-- Bottom border of the comment block (both variants): the 45-character
literal of `=` signs the source writes out. -/
def eqBorderBot : String := String.mk (List.replicate 45 '=')

/-- The field lines pushed between the two borders by the new variant's
`makeCommentBlock` (`inner[1] .. inner[inner.length-2]`): filename, then the
optional description, author and date lines, each pushed only when truthy. -/
def midLines (filename description author date : String) : List String :=
  ["                " ++ filename]
    ++ (if description ≠ "" then [" " ++ description] else [])
    ++ (if author ≠ "" then [" Author: " ++ author] else [])
    ++ (if date ≠ "" then [" Date: " ++ date] else [])

/-- Comment style of the new variant's `makeCommentBlock`
(`'block'`, `'hash'`, `'cpp'`). -/
inductive CStyle where
  | block
  | hash
  | cpp
deriving DecidableEq, Repr

/-- Line list built by the new variant's `makeCommentBlock` before
`join('\n')`: the `inner` array is `eqBorderTop :: midLines ++ [eqBorderBot]`;
block style decorates top/middle/bottom, hash and cpp styles map a line
prefix over all of `inner`. -/
def makeCommentBlockLines (filename description author date : String) :
    CStyle → List String
  | CStyle.block =>
    ("/**" ++ eqBorderTop)
      :: (midLines filename description author date).map (fun l => " * " ++ l)
      ++ [" *" ++ eqBorderBot ++ "**/"]
  | CStyle.hash =>
    (eqBorderTop :: midLines filename description author date ++ [eqBorderBot]).map
      (fun l => "# " ++ l)
  | CStyle.cpp =>
    (eqBorderTop :: midLines filename description author date ++ [eqBorderBot]).map
      (fun l => "// " ++ l)

/-- New variant `makeCommentBlock`: `lines.join('\n') + '\n\n'`. -/
def makeCommentBlock (filename description author date : String)
    (style : CStyle) : String :=
  joinLines (makeCommentBlockLines filename description author date style) ++ "\n\n"

/-- The lines pushed between the two border lines by the legacy variant's
`makeCommentBlock`: filename, then the optional description, author and date
lines, each pushed only when truthy. -/
def midLinesLegacy (filename description author date : String) : List String :=
  [" *                " ++ filename]
    ++ (if description ≠ "" then [" *  " ++ description] else [])
    ++ (if author ≠ "" then [" *  Author: " ++ author] else [])
    ++ (if date ≠ "" then [" *  Date: " ++ date] else [])

/-- Line list of the legacy variant's `makeCommentBlock` (block form only):
top border line, field lines, bottom border line, in push order. -/
def makeCommentBlockLinesLegacy (filename description author date : String) :
    List String :=
  ("/**" ++ eqBorderTop)
    :: midLinesLegacy filename description author date
    ++ [" *" ++ eqBorderBot ++ "**/"]

/-- Legacy variant `makeCommentBlock`: `lines.join('\n') + '\n\n'`. -/
def makeCommentBlockLegacy (filename description author date : String) : String :=
  joinLines (makeCommentBlockLinesLegacy filename description author date) ++ "\n\n"

/-- The character replacement of `replace(/[^a-zA-Z0-9]/g, '_')`. -/
def guardChar (c : Char) : Char :=
  if c.isAlphanum then c else '_'

/-- Both variants' `makeGuardMacro`: sanitize `basename + '_' + ext`, then
`toUpperCase` (character-wise; every non-ASCII character has already been
replaced by `'_'`, so ASCII `Char.toUpper` is exact), then append `'_'`. -/
def makeGuardMacro (basename ext : String) : String :=
  String.mk (((basename ++ "_" ++ ext).data.map guardChar).map Char.toUpper) ++ "_"

/-- `s.charAt(0).toUpperCase() + s.slice(1)` (segments fed to it contain only
ASCII alphanumeric characters). -/
def capFirst (s : String) : String :=
  match s.data with
  | [] => ""
  | c :: cs => String.mk (c.toUpper :: cs)

/-- Both variants' `toClassName`. JS `split(/[^a-zA-Z0-9]+/)` splits at every
maximal run of separator characters; splitting at every single separator
character and then dropping empty segments with `filter(Boolean)` produces
the identical segment list, which is how it is modelled here. -/
def toClassName (basename : String) : String :=
  String.join
    ((((splitSeps (fun c => !c.isAlphanum) basename.data).map
        (fun l => String.mk l)).filter (fun s => s != "")).map capFirst)

/-- Result of the new variant's `detectStyle`. -/
structure Detected where
  style : CStyle
  shebang : Bool
deriving DecidableEq, Repr

/-- New variant `detectStyle`. -/
def detectStyle (extNoDot basenameWithExt : String) : Detected :=
  let b := String.mk (basenameWithExt.data.map Char.toLower)
  if extNoDot = "py" then ⟨CStyle.hash, true⟩
  else if extNoDot = "" ∧ b = "makefile" then ⟨CStyle.hash, false⟩
  else ⟨CStyle.block, false⟩

/- section: hasHeaderAtTop -/

/-- The first 8 lines of the text re-joined (`split('\n').slice(0,8).join('\n')`). -/
def head8 (t : String) : String :=
  joinLines ((splitLines t).take 8)

/-- The first 10 lines of the text re-joined (`split('\n').slice(0,10).join('\n')`). -/
def rest10 (t : String) : String :=
  joinLines ((splitLines t).take 10)

/-- A match of the regex `#+\s*={3,}` anchored at the head of the character
list: one or more `#`, then whitespace, then at least three `=`. Greedy
scanning is exact here because `#` is not whitespace and `=` is neither. -/
def hashRunEqAt (l : List Char) : Bool :=
  match l with
  | [] => false
  | c :: rest =>
    c = '#' &&
      "===".data.isPrefixOf
        ((rest.dropWhile (fun x => x = '#')).dropWhile (fun x => x.isWhitespace))

/-- `/#+\s*={3,}/.test(s)`: a match may start anywhere. -/
def hashRunEqTest (s : String) : Bool :=
  s.data.tails.any hashRunEqAt

/-- A match of `#\s*={3,}` anchored at the head of the character list. -/
def hashLineEqAt (l : List Char) : Bool :=
  match l with
  | [] => false
  | c :: rest =>
    c = '#' && "===".data.isPrefixOf (rest.dropWhile (fun x => x.isWhitespace))

/-- A match of `#\s*={3,}` anchored right after a leading newline. -/
def afterNewlineHashLineEq (l : List Char) : Bool :=
  match l with
  | [] => false
  | c :: rest => c = '\n' && hashLineEqAt rest

/-- `/^#\s*={3,}/m.test(s)`: anchored at the start of the string or right
after a newline. -/
def hashLineEqTest (s : String) : Bool :=
  hashLineEqAt s.data || s.data.tails.any afterNewlineHashLineEq

/-- New variant `hasHeaderAtTop`: `!text` short-circuit, then the `/**` test
on the first 8 lines, then the shebang branch (which re-inspects the first 10
lines for a `={3,}` or `#+\s*={3,}` run), then the `={3,}` and multiline
`^#\s*={3,}` tests on the first 8 lines. -/
def hasHeaderAtTop (text : String) : Bool :=
  if text = "" then false
  else
    let head := head8 text
    if containsSub head "/**" then true
    else if strHasPre "#!" (jsTrim head)
        && (containsSub (rest10 text) "===" || hashRunEqTest (rest10 text)) then true
    else if containsSub head "===" then true
    else if hashLineEqTest head then true
    else false

/- section: per-extension appended content -/

/-- Include-guard block appended for `.h` files (both variants, and the
non-interactive paths). -/
def guardOnly (g : String) : String :=
  "#ifndef " ++ g ++ "\n#define " ++ g ++ "\n\n\n#endif /* !" ++ g ++ " */\n"

/-- The `classBlock` array built for `.hpp` files. -/
def classBlockLines (cls : String) : List String :=
  ["class " ++ cls ++ " \x7b",
   "    public:",
   "        " ++ cls ++ "();",
   "        ~" ++ cls ++ "();",
   "",
   "    protected:",
   "    private:",
   "\x7d;"]

/-- Guard plus class skeleton appended for `.hpp` files. -/
def hppAppend (g cls : String) : String :=
  "#ifndef " ++ g ++ "\n#define " ++ g ++ "\n\n"
    ++ joinLines (classBlockLines cls)
    ++ "\n\n#endif /* !" ++ g ++ " */\n"

/-- The `impl` array built for `.cpp` files. -/
def cppImplLines (cls headerFile : String) : List String :=
  ["#include \"" ++ headerFile ++ "\"\n",
   cls ++ "::" ++ cls ++ "()",
   "\x7b",
   "\x7d",
   "",
   cls ++ "::~" ++ cls ++ "()",
   "\x7b",
   "\x7d",
   ""]

/-- Implementation stub appended for `.cpp` files: `impl.join('\n')`. -/
def cppAppend (basename : String) : String :=
  joinLines (cppImplLines (toClassName basename) (basename ++ ".hpp"))

/- section: documents, host state, event traces -/

/-- FileIdentity plus current text of the active document. The four name
fields are what the orchestrators derive once per invocation from
`doc.fileName` via `path.extname` / `path.basename`. -/
structure Doc where
  text : String
  basenameWithExt : String
  basename : String
  extNoDot : String
deriving DecidableEq, Repr

/-- The one persisted configuration value (`proheader.defaultAuthor`);
`""` models an unset key. -/
structure Config where
  defaultAuthor : String
deriving DecidableEq, Repr

/-- Environment fallbacks read by the author default chain. -/
structure Env where
  gitAuthorName : String
  user : String
deriving DecidableEq, Repr

/-- Responses the host returns for the input boxes of one invocation;
`""` models both a cancelled box and an emptied box (identical under JS
truthiness at every use site). -/
structure Prompts where
  author : String
  description : String
  guard : String
deriving DecidableEq, Repr

/-- User-visible / host-visible effects of one invocation, in order. -/
inductive Event where
  | promptAuthor (dflt : String)
  | promptDescription
  | promptGuard (dflt : String)
  | showMessage (msg : String)
  | insertAtTop (content : String)
  | updateConfig (key val : String)
deriving DecidableEq, Repr

/-- Text-insertion events. -/
def Event.isInsert : Event → Bool
  | Event.insertAtTop _ => true
  | _ => false

/-- Input-box events. -/
def Event.isPromptEvent : Event → Bool
  | Event.promptAuthor _ => true
  | Event.promptDescription => true
  | Event.promptGuard _ => true
  | _ => false

/-- Configuration-write events. -/
def Event.isConfigWrite : Event → Bool
  | Event.updateConfig _ _ => true
  | _ => false

/-- Content of the first text insertion of a trace, if any. -/
def firstInserted : List Event → Option String
  | [] => none
  | Event.insertAtTop s :: _ => some s
  | _ :: rest => firstInserted rest

/-- `config.get('defaultAuthor') || process.env.GIT_AUTHOR_NAME ||
process.env.USER || ''`. -/
def authorChain (cfg : Config) (env : Env) : String :=
  jsOr cfg.defaultAuthor (jsOr env.gitAuthorName (jsOr env.user ""))

/- section: orchestrators -/

/-- The text the new variant's `insertHeader` builds to insert: style-aware
comment block with the prompted description and the prompted-or-default
author, per-extension appended content (guard input box result falling back
to the suggested macro), shebang line prepended when the style asks for it. -/
def insertHeaderNewText (doc : Doc) (cfg : Config) (env : Env) (p : Prompts)
    (today : String) : String :=
  let savedAuthor := authorChain cfg env
  let author := jsOr p.author savedAuthor
  let detected := detectStyle doc.extNoDot doc.basenameWithExt
  let comment := makeCommentBlock doc.basenameWithExt p.description author today
    detected.style
  let ext := doc.extNoDot
  let toInsertBase :=
    if ext = "c" then comment
    else if ext = "h" then
      comment ++ guardOnly (jsOr p.guard (makeGuardMacro doc.basename "H"))
    else if ext = "hpp" then
      comment ++ hppAppend (jsOr p.guard (makeGuardMacro doc.basename "HPP"))
        (toClassName doc.basename)
    else if ext = "cpp" then comment ++ cppAppend doc.basename
    else comment
  if detected.shebang then "#!/usr/bin/env python3\n" ++ toInsertBase
  else toInsertBase

/-- New variant `insertHeader` (interactive command): prompts for author and
description, builds the text (prompting for a guard macro for `.h`/`.hpp`),
and only then checks `hasHeaderAtTop`; on the insert path it persists a
newly entered author that differs from the stored value. -/
def insertHeaderNew (doc : Doc) (cfg : Config) (env : Env) (p : Prompts)
    (today : String) : List Event :=
  let ext := doc.extNoDot
  let guardEvents : List Event :=
    if ext = "h" then [Event.promptGuard (makeGuardMacro doc.basename "H")]
    else if ext = "hpp" then [Event.promptGuard (makeGuardMacro doc.basename "HPP")]
    else []
  [Event.promptAuthor (authorChain cfg env), Event.promptDescription] ++ guardEvents
    ++ (if hasHeaderAtTop doc.text then
          [Event.showMessage "A header already exists in this file."]
        else
          [Event.insertAtTop (insertHeaderNewText doc cfg env p today)]
            ++ (if p.author ≠ "" ∧ p.author ≠ cfg.defaultAuthor then
                  [Event.updateConfig "defaultAuthor" p.author]
                else [])
            ++ [Event.showMessage "Pro header inserted."])

/-- The text the legacy variant's `insertHeader` builds for the four
supported extensions (unused for other extensions, where it aborts). -/
def insertHeaderLegacyText (doc : Doc) (p : Prompts) (today : String) : String :=
  let comment := makeCommentBlockLegacy doc.basenameWithExt p.description p.author
    today
  let ext := doc.extNoDot
  if ext = "c" then comment
  else if ext = "h" then
    comment ++ guardOnly (jsOr p.guard (makeGuardMacro doc.basename "H"))
  else if ext = "hpp" then
    comment ++ hppAppend (jsOr p.guard (makeGuardMacro doc.basename "HPP"))
      (toClassName doc.basename)
  else comment ++ cppAppend doc.basename

/-- Legacy variant `insertHeader` (extension.js): prompts for author and
description, and inserts for the four supported extensions; any other
extension is reported as unsupported. There is no existing-header check. -/
def insertHeaderLegacy (doc : Doc) (env : Env) (p : Prompts)
    (today : String) : List Event :=
  let ext := doc.extNoDot
  [Event.promptAuthor (jsOr env.gitAuthorName (jsOr env.user "")),
   Event.promptDescription]
    ++ (if ext = "c" then
          [Event.insertAtTop (insertHeaderLegacyText doc p today),
           Event.showMessage "Pro header inserted."]
        else if ext = "h" then
          [Event.promptGuard (makeGuardMacro doc.basename "H"),
           Event.insertAtTop (insertHeaderLegacyText doc p today),
           Event.showMessage "Pro header inserted."]
        else if ext = "hpp" then
          [Event.promptGuard (makeGuardMacro doc.basename "HPP"),
           Event.insertAtTop (insertHeaderLegacyText doc p today),
           Event.showMessage "Pro header inserted."]
        else if ext = "cpp" then
          [Event.insertAtTop (insertHeaderLegacyText doc p today),
           Event.showMessage "Pro header inserted."]
        else
          [Event.showMessage
            ("Extension " ++ ext ++ " is not supported by proHeader.")])

/-- The text `autoInsertHeaderForDocument` builds to insert: comment block
with empty description and the stored/environment default author,
non-interactive per-extension additions, shebang when needed. -/
def autoInsertText (doc : Doc) (cfg : Config) (env : Env)
    (today : String) : String :=
  let defaultAuthor := authorChain cfg env
  let detected := detectStyle doc.extNoDot doc.basenameWithExt
  let base := makeCommentBlock doc.basenameWithExt "" defaultAuthor today
    detected.style
  let ext := doc.extNoDot
  let toInsertBase :=
    if ext = "h" then base ++ guardOnly (makeGuardMacro doc.basename "H")
    else if ext = "hpp" then
      base ++ hppAppend (makeGuardMacro doc.basename "HPP")
        (toClassName doc.basename)
    else if ext = "cpp" then base ++ cppAppend doc.basename
    else base
  if detected.shebang then "#!/usr/bin/env python3\n" ++ toInsertBase
  else toInsertBase

/-- New variant `autoInsertHeaderForDocument`: inserts only into empty
documents (a non-empty document is skipped silently, whether or not it
already has a header); no prompts; no messages. -/
def autoInsertHeaderForDocument (doc : Doc) (cfg : Config) (env : Env)
    (today : String) : List Event :=
  if 0 < (jsTrim doc.text).length then []
  else [Event.insertAtTop (autoInsertText doc cfg env today)]

/-- The text `interactiveInsertForCreatedDocument` builds to insert:
comment block with the prompted description and the prompted-or-default
author, non-interactive per-extension additions, shebang when needed. -/
def onCreateText (doc : Doc) (cfg : Config) (env : Env) (p : Prompts)
    (today : String) : String :=
  let defaultAuthor := authorChain cfg env
  let author := jsOr p.author defaultAuthor
  let detected := detectStyle doc.extNoDot doc.basenameWithExt
  let comment := makeCommentBlock doc.basenameWithExt (jsOr p.description "")
    (jsOr author defaultAuthor) today detected.style
  let ext := doc.extNoDot
  let toInsertBase :=
    if ext = "h" then comment ++ guardOnly (makeGuardMacro doc.basename "H")
    else if ext = "hpp" then
      comment ++ hppAppend (makeGuardMacro doc.basename "HPP")
        (toClassName doc.basename)
    else if ext = "cpp" then comment ++ cppAppend doc.basename
    else comment
  if detected.shebang then "#!/usr/bin/env python3\n" ++ toInsertBase
  else toInsertBase

/-- New variant `interactiveInsertForCreatedDocument`: skips non-empty
documents silently (before any prompt); otherwise prompts for author and
description, inserts, and persists a newly entered author that differs from
the stored value. -/
def interactiveInsertForCreatedDocument (doc : Doc) (cfg : Config) (env : Env)
    (p : Prompts) (today : String) : List Event :=
  if 0 < (jsTrim doc.text).length then []
  else
    [Event.promptAuthor (authorChain cfg env), Event.promptDescription,
     Event.insertAtTop (onCreateText doc cfg env p today)]
      ++ (if p.author ≠ "" ∧ p.author ≠ cfg.defaultAuthor then
            [Event.updateConfig "defaultAuthor" p.author]
          else [])

/- section: helper lemmas -/

theorem strAppendAssoc (a b c : String) : a ++ b ++ c = a ++ (b ++ c) := by
  apply String.ext
  simp [String.data_append]

theorem joinLines_cons_data (h : String) (rest : List String) :
    ∃ u, (joinLines (h :: rest)).data = h.data ++ u := by
  cases rest with
  | nil => exact ⟨[], by simp [joinLines]⟩
  | cons b bs =>
    refine ⟨"\n".data ++ (joinLines (b :: bs)).data, ?_⟩
    simp [joinLines, String.data_append]

theorem exPre {L : List String} (A B v : String) (h : A ++ (B ++ v) ∈ L) :
    ∃ p, p ++ v ∈ L := by
  refine ⟨A ++ B, ?_⟩
  rw [strAppendAssoc]
  exact h

/- section: C6 -/

/-- C6: `makeGuardMacro` is a deterministic total function (a Lean `def`)
that replaces every character outside `[A-Za-z0-9]` of `basename_ext` with
`_` and upper-cases it (so the result has exactly one character per input
character plus the joining and trailing underscores), appends a trailing
`_`, and does not normalize leading digits; in particular
`makeGuardMacro "game" "H" = "GAME_H_"` and
`makeGuardMacro "my-file" "HPP" = "MY_FILE_HPP_"`. -/
theorem makeGuardMacro_spec :
    makeGuardMacro "game" "H" = "GAME_H_" ∧
    makeGuardMacro "my-file" "HPP" = "MY_FILE_HPP_" ∧
    makeGuardMacro "2d" "h" = "2D_H_" ∧
    (∀ b t : String, (makeGuardMacro b t).length = b.length + t.length + 2) ∧
    (∀ b t : String, ∃ u, (makeGuardMacro b t).data = u ++ ['_']) := by
  refine ⟨by decide, by decide, by decide, ?_, ?_⟩
  · intro b t
    have hu : ("_" : String).length = 1 := rfl
    have hmk :
        (String.mk (((b ++ "_" ++ t).data.map guardChar).map Char.toUpper)).length
          = (b ++ "_" ++ t).data.length := by
      show (((b ++ "_" ++ t).data.map guardChar).map Char.toUpper).length = _
      simp
    have hdl : (b ++ "_" ++ t).data.length = (b ++ "_" ++ t).length := rfl
    rw [makeGuardMacro, String.length_append, hmk, hdl,
      String.length_append, String.length_append, hu]
    omega
  · intro b t
    refine ⟨((b ++ "_" ++ t).data.map guardChar).map Char.toUpper, ?_⟩
    rw [makeGuardMacro, String.data_append]

/- section: C7 -/

/-- C7: `toClassName` splits on runs of non-alphanumeric characters, drops
empty segments (so a leading separator character is simply discarded),
upper-cases the first character of each remaining segment and concatenates:
the empty string maps to the empty string, `toClassName "game" = "Game"`
and `toClassName "my_game-v2" = "MyGameV2"`. -/
theorem toClassName_spec :
    toClassName "" = "" ∧
    toClassName "game" = "Game" ∧
    toClassName "my_game-v2" = "MyGameV2" ∧
    (∀ (b : String) (c : Char), c.isAlphanum = false →
      toClassName (String.mk (c :: b.data)) = toClassName b) := by
  refine ⟨by decide, by decide, by decide, ?_⟩
  intro b c hc
  show String.join _ = String.join _
  congr 1
  show (((splitSeps _ (c :: b.data)).map _).filter _).map _ = _
  rw [splitSeps]
  simp [hc]

/-- Witness for the hypothesis-bearing part of `toClassName_spec`:
a leading hyphen is dropped. -/
theorem toClassName_spec_witness :
    toClassName (String.mk ('-' :: "ab".data)) = toClassName "ab" :=
  toClassName_spec.2.2.2 "ab" '-' (by decide)

/- section: C4 -/

theorem mem_ite_singleton {α : Type} {c : Prop} [Decidable c] {x y : α}
    (h : y ∈ (if c then [x] else ([] : List α))) : y = x := by
  by_cases hc : c
  · rw [if_pos hc] at h
    exact List.mem_singleton.mp h
  · rw [if_neg hc] at h
    cases h

theorem legacyFileLine (f : String) :
    " *                " ++ f = " * " ++ ("               " ++ f) := by
  rw [show (" *                " : String) = " * " ++ "               " from by decide,
    strAppendAssoc]

theorem legacyDescLine (d : String) : " *  " ++ d = " * " ++ (" " ++ d) := by
  rw [show (" *  " : String) = " * " ++ " " from by decide, strAppendAssoc]

theorem legacyAuthorLine (a : String) :
    " *  Author: " ++ a = " * " ++ (" Author: " ++ a) := by
  rw [show (" *  Author: " : String) = " * " ++ " Author: " from by decide,
    strAppendAssoc]

theorem legacyDateLine (dt : String) :
    " *  Date: " ++ dt = " * " ++ (" Date: " ++ dt) := by
  rw [show (" *  Date: " : String) = " * " ++ " Date: " from by decide,
    strAppendAssoc]

/-- C4: in block style both variants' comment-block builders produce an
opening line `/**` followed by exactly 46 `=` characters, middle lines each
carrying the ` * ` field prefix, a closing line ` *` followed by exactly 45
`=` characters and `**/`, and a final blank line; the two border lines are
literally the same for every filename, description, author and date input. -/
theorem makeCommentBlock_borders (f d a dt : String) :
    ((makeCommentBlockLines f d a dt CStyle.block).head? =
        some ("/**" ++ String.mk (List.replicate 46 '=')) ∧
      (makeCommentBlockLines f d a dt CStyle.block).getLast? =
        some (" *" ++ String.mk (List.replicate 45 '=') ++ "**/") ∧
      (∀ l ∈ ((makeCommentBlockLines f d a dt CStyle.block).drop 1).dropLast,
        ∃ r, l = " * " ++ r) ∧
      (∃ s, makeCommentBlock f d a dt CStyle.block = s ++ "\n\n")) ∧
    ((makeCommentBlockLinesLegacy f d a dt).head? =
        some ("/**" ++ String.mk (List.replicate 46 '=')) ∧
      (makeCommentBlockLinesLegacy f d a dt).getLast? =
        some (" *" ++ String.mk (List.replicate 45 '=') ++ "**/") ∧
      (∀ l ∈ ((makeCommentBlockLinesLegacy f d a dt).drop 1).dropLast,
        ∃ r, l = " * " ++ r) ∧
      (∃ s, makeCommentBlockLegacy f d a dt = s ++ "\n\n")) := by
  have hTop : eqBorderTop = String.mk (List.replicate 46 '=') := by decide
  have hBot : eqBorderBot = String.mk (List.replicate 45 '=') := by decide
  constructor
  · refine ⟨?_, ?_, ?_, ⟨joinLines (makeCommentBlockLines f d a dt CStyle.block), rfl⟩⟩
    · simp [makeCommentBlockLines, hTop]
    · show (("/**" ++ eqBorderTop) ::
          ((midLines f d a dt).map (fun l => " * " ++ l)
            ++ [" *" ++ eqBorderBot ++ "**/"])).getLast? = _
      rw [← List.cons_append, List.getLast?_concat, hBot]
    · intro l hl
      have : ((makeCommentBlockLines f d a dt CStyle.block).drop 1).dropLast
          = (midLines f d a dt).map (fun l => " * " ++ l) := by
        show ((("/**" ++ eqBorderTop) ::
            ((midLines f d a dt).map (fun l => " * " ++ l)
              ++ [" *" ++ eqBorderBot ++ "**/"])).drop 1).dropLast = _
        simp [List.dropLast_concat]
      rw [this] at hl
      rcases List.mem_map.mp hl with ⟨m, _, hm⟩
      exact ⟨m, hm.symm⟩
  · refine ⟨?_, ?_, ?_, ⟨joinLines (makeCommentBlockLinesLegacy f d a dt), rfl⟩⟩
    · simp [makeCommentBlockLinesLegacy, hTop]
    · show (("/**" ++ eqBorderTop) ::
          (midLinesLegacy f d a dt ++ [" *" ++ eqBorderBot ++ "**/"])).getLast? = _
      rw [← List.cons_append, List.getLast?_concat, hBot]
    · intro l hl
      have hstruct : ((makeCommentBlockLinesLegacy f d a dt).drop 1).dropLast
          = midLinesLegacy f d a dt := by
        show ((("/**" ++ eqBorderTop) ::
            (midLinesLegacy f d a dt ++ [" *" ++ eqBorderBot ++ "**/"])).drop 1).dropLast = _
        simp [List.dropLast_concat]
      rw [hstruct, midLinesLegacy] at hl
      rcases List.mem_append.mp hl with hl | hl
      · rcases List.mem_append.mp hl with hl | hl
        · rcases List.mem_append.mp hl with hl | hl
          · rcases List.mem_singleton.mp hl with rfl
            exact ⟨_, legacyFileLine f⟩
          · rcases mem_ite_singleton hl with rfl
            exact ⟨_, legacyDescLine d⟩
        · rcases mem_ite_singleton hl with rfl
          exact ⟨_, legacyAuthorLine a⟩
      · rcases mem_ite_singleton hl with rfl
        exact ⟨_, legacyDateLine dt⟩

/-- Witness for `makeCommentBlock_borders` at a concrete input. -/
theorem makeCommentBlock_borders_witness :
    (makeCommentBlockLinesLegacy "x.c" "" "me" "").getLast? =
      some (" *" ++ String.mk (List.replicate 45 '=') ++ "**/") :=
  (makeCommentBlock_borders "x.c" "" "me" "").2.2.1

/- section: C5 -/

theorem authShift (a : String) : " Author: " ++ a = " " ++ ("Author: " ++ a) := by
  rw [show (" Author: " : String) = " " ++ "Author: " from by decide, strAppendAssoc]

theorem dateShift (dt : String) : " Date: " ++ dt = " " ++ ("Date: " ++ dt) := by
  rw [show (" Date: " : String) = " " ++ "Date: " from by decide, strAppendAssoc]

/-- C5: in every style, the comment block contains a line carrying the
filename; a non-empty description, author (`Author: <author>`) or date
(`Date: <date>`) gets a line of its own; and the number of lines is exactly
three (two borders plus the filename line) plus one per non-empty field, so
an empty or undefined field contributes no line at all. Both variants. -/
theorem makeCommentBlock_fields (st : CStyle) (f d a dt : String) :
    ((∃ p, p ++ f ∈ makeCommentBlockLines f d a dt st) ∧
      (d ≠ "" → ∃ p, p ++ d ∈ makeCommentBlockLines f d a dt st) ∧
      (a ≠ "" → ∃ p, p ++ ("Author: " ++ a) ∈ makeCommentBlockLines f d a dt st) ∧
      (dt ≠ "" → ∃ p, p ++ ("Date: " ++ dt) ∈ makeCommentBlockLines f d a dt st) ∧
      (makeCommentBlockLines f d a dt st).length =
        3 + (if d ≠ "" then 1 else 0) + (if a ≠ "" then 1 else 0)
          + (if dt ≠ "" then 1 else 0)) ∧
    ((∃ p, p ++ f ∈ makeCommentBlockLinesLegacy f d a dt) ∧
      (d ≠ "" → ∃ p, p ++ d ∈ makeCommentBlockLinesLegacy f d a dt) ∧
      (a ≠ "" → ∃ p, p ++ ("Author: " ++ a) ∈ makeCommentBlockLinesLegacy f d a dt) ∧
      (dt ≠ "" → ∃ p, p ++ ("Date: " ++ dt) ∈ makeCommentBlockLinesLegacy f d a dt) ∧
      (makeCommentBlockLinesLegacy f d a dt).length =
        3 + (if d ≠ "" then 1 else 0) + (if a ≠ "" then 1 else 0)
          + (if dt ≠ "" then 1 else 0)) := by
  have hF : "                " ++ f ∈ midLines f d a dt := by simp [midLines]
  have hD : d ≠ "" → " " ++ d ∈ midLines f d a dt := fun h => by simp [midLines, h]
  have hA : a ≠ "" → " Author: " ++ a ∈ midLines f d a dt := fun h => by
    simp [midLines, h]
  have hDt : dt ≠ "" → " Date: " ++ dt ∈ midLines f d a dt := fun h => by
    simp [midLines, h]
  have lift : ∀ x ∈ midLines f d a dt,
      ∃ q, q ++ x ∈ makeCommentBlockLines f d a dt st := by
    intro x hx
    cases st
    · refine ⟨" * ", ?_⟩
      show " * " ++ x ∈ ("/**" ++ eqBorderTop)
        :: ((midLines f d a dt).map (fun l => " * " ++ l)
          ++ [" *" ++ eqBorderBot ++ "**/"])
      exact List.mem_cons_of_mem _ (List.mem_append_left _ (List.mem_map_of_mem _ hx))
    · exact ⟨"# ", by
        simp only [makeCommentBlockLines]
        exact List.mem_map_of_mem _
          (List.mem_cons_of_mem _ (List.mem_append_left _ hx))⟩
    · exact ⟨"// ", by
        simp only [makeCommentBlockLines]
        exact List.mem_map_of_mem _
          (List.mem_cons_of_mem _ (List.mem_append_left _ hx))⟩
  constructor
  · refine ⟨?_, ?_, ?_, ?_, ?_⟩
    · obtain ⟨q, hq⟩ := lift _ hF
      exact exPre q _ f hq
    · intro h
      obtain ⟨q, hq⟩ := lift _ (hD h)
      exact exPre q _ d hq
    · intro h
      obtain ⟨q, hq⟩ := lift _ (hA h)
      rw [authShift] at hq
      exact exPre q _ _ hq
    · intro h
      obtain ⟨q, hq⟩ := lift _ (hDt h)
      rw [dateShift] at hq
      exact exPre q _ _ hq
    · cases st <;>
        simp [makeCommentBlockLines, midLines, apply_ite List.length] <;>
        split_ifs <;> simp
  · have hFL : " *                " ++ f ∈ makeCommentBlockLinesLegacy f d a dt := by
      simp [makeCommentBlockLinesLegacy, midLinesLegacy]
    have hDL : d ≠ "" → " *  " ++ d ∈ makeCommentBlockLinesLegacy f d a dt :=
      fun h => by simp [makeCommentBlockLinesLegacy, midLinesLegacy, h]
    have hAL : a ≠ "" → " *  Author: " ++ a ∈ makeCommentBlockLinesLegacy f d a dt :=
      fun h => by simp [makeCommentBlockLinesLegacy, midLinesLegacy, h]
    have hDtL : dt ≠ "" → " *  Date: " ++ dt ∈ makeCommentBlockLinesLegacy f d a dt :=
      fun h => by simp [makeCommentBlockLinesLegacy, midLinesLegacy, h]
    refine ⟨?_, ?_, ?_, ?_, ?_⟩
    · rw [legacyFileLine] at hFL
      exact exPre _ _ f hFL
    · intro h
      have := hDL h
      rw [legacyDescLine] at this
      exact exPre _ _ d this
    · intro h
      have := hAL h
      rw [legacyAuthorLine, authShift] at this
      exact exPre _ _ _ this
    · intro h
      have := hDtL h
      rw [legacyDateLine, dateShift] at this
      exact exPre _ _ _ this
    · simp [makeCommentBlockLinesLegacy, midLinesLegacy, apply_ite List.length]
      split_ifs <;> simp

/-- Witness for `makeCommentBlock_fields` at a concrete input. -/
theorem makeCommentBlock_fields_witness :
    (makeCommentBlockLines "x.py" "a desc" "me" "2025-01-01" CStyle.hash).length =
      3 + (if ("a desc" : String) ≠ "" then 1 else 0)
        + (if ("me" : String) ≠ "" then 1 else 0)
        + (if ("2025-01-01" : String) ≠ "" then 1 else 0) :=
  (makeCommentBlock_fields CStyle.hash "x.py" "a desc" "me" "2025-01-01").1.2.2.2.2

/- section: C8 -/

theorem infix_of_hashRunEqAt {l : List Char} (h : hashRunEqAt l = true) :
    "===".data <:+: l := by
  cases l with
  | nil => simp [hashRunEqAt] at h
  | cons c rest =>
    simp only [hashRunEqAt, Bool.and_eq_true, decide_eq_true_eq] at h
    obtain ⟨-, hp⟩ := h
    have hpre := List.isPrefixOf_iff_prefix.mp hp
    have hsuf :
        (rest.dropWhile (fun x => x = '#')).dropWhile (fun x => x.isWhitespace)
          <:+ rest :=
      (List.dropWhile_suffix _).trans (List.dropWhile_suffix _)
    obtain ⟨t, ht⟩ := hpre
    obtain ⟨s, hs⟩ := hsuf
    refine ⟨c :: s, t, ?_⟩
    rw [← hs, ← ht]
    simp

theorem infix_of_hashLineEqAt {l : List Char} (h : hashLineEqAt l = true) :
    "===".data <:+: l := by
  cases l with
  | nil => simp [hashLineEqAt] at h
  | cons c rest =>
    simp only [hashLineEqAt, Bool.and_eq_true, decide_eq_true_eq] at h
    obtain ⟨-, hp⟩ := h
    have hpre := List.isPrefixOf_iff_prefix.mp hp
    have hsuf : rest.dropWhile (fun x => x.isWhitespace) <:+ rest :=
      List.dropWhile_suffix _
    obtain ⟨t, ht⟩ := hpre
    obtain ⟨s, hs⟩ := hsuf
    refine ⟨c :: s, t, ?_⟩
    rw [← hs, ← ht]
    simp

theorem containsSub_of_hashRunEqTest (s : String) (h : hashRunEqTest s = true) :
    containsSub s "===" = true := by
  rw [hashRunEqTest] at h
  obtain ⟨t, ht, hat⟩ := List.any_eq_true.mp h
  have hsuf : t <:+ s.data := (List.mem_tails _ _).mp ht
  have : ("===".data : List Char) <:+: s.data :=
    (infix_of_hashRunEqAt hat).trans hsuf.isInfix
  exact decide_eq_true this

theorem containsSub_of_hashLineEqTest (s : String) (h : hashLineEqTest s = true) :
    containsSub s "===" = true := by
  rw [hashLineEqTest, Bool.or_eq_true] at h
  rcases h with h | h
  · exact decide_eq_true ((infix_of_hashLineEqAt h).trans (List.infix_refl _))
  · obtain ⟨t, ht, hat⟩ := List.any_eq_true.mp h
    have hsuf : t <:+ s.data := (List.mem_tails _ _).mp ht
    cases t with
    | nil => simp [afterNewlineHashLineEq] at hat
    | cons c rest =>
      simp only [afterNewlineHashLineEq, Bool.and_eq_true, decide_eq_true_eq] at hat
      obtain ⟨-, hat⟩ := hat
      have h1 : rest <:+ c :: rest := ⟨[c], rfl⟩
      exact decide_eq_true
        ((infix_of_hashLineEqAt hat).trans ((h1.trans hsuf).isInfix))

theorem splitSeps_ne_nil (p : Char → Bool) (l : List Char) : splitSeps p l ≠ [] := by
  cases l with
  | nil => simp [splitSeps]
  | cons c cs =>
    simp only [splitSeps]
    split <;> simp

theorem splitSeps_cons_of_not (p : Char → Bool) (c : Char) (cs : List Char)
    (hc : p c = false) :
    splitSeps p (c :: cs) = (c :: (splitSeps p cs).headI) :: (splitSeps p cs).tail := by
  simp only [splitSeps]
  rw [if_neg (by simp [hc])]

theorem head8_of_slashStarStar (r : String) :
    ∃ u, (head8 ("/**" ++ r)).data = '/' :: '*' :: '*' :: u := by
  have hdata : ("/**" ++ r).data = '/' :: '*' :: '*' :: r.data := by
    rw [String.data_append]
    rfl
  have h1 := splitSeps_cons_of_not (fun c => c = '\n') '/' ('*' :: '*' :: r.data)
    (by decide)
  have h2 := splitSeps_cons_of_not (fun c => c = '\n') '*' ('*' :: r.data) (by decide)
  have h3 := splitSeps_cons_of_not (fun c => c = '\n') '*' r.data (by decide)
  have hsplit : splitSeps (fun c => c = '\n') ("/**" ++ r).data
      = ('/' :: '*' :: '*'
          :: (splitSeps (fun c => c = '\n') r.data).headI)
        :: (splitSeps (fun c => c = '\n') r.data).tail := by
    rw [hdata, h1, h2, h3]
    simp
  have hlines : splitLines ("/**" ++ r)
      = String.mk ('/' :: '*' :: '*'
          :: (splitSeps (fun c => c = '\n') r.data).headI)
        :: ((splitSeps (fun c => c = '\n') r.data).tail.map (fun l => String.mk l)) := by
    rw [splitLines, hsplit]
    simp
  rw [head8, hlines, List.take_succ_cons]
  obtain ⟨u, hu⟩ := joinLines_cons_data
    (String.mk ('/' :: '*' :: '*' :: (splitSeps (fun c => c = '\n') r.data).headI))
    (((splitSeps (fun c => c = '\n') r.data).tail.map (fun l => String.mk l)).take 7)
  exact ⟨(splitSeps (fun c => c = '\n') r.data).headI ++ u, by rw [hu]; rfl⟩

/-- C8: `hasHeaderAtTop` returns true exactly when the first 8 lines contain
a `/**`, or the trimmed 8-line head begins with a shebang and the first 10
lines contain a run of 3 or more `=`, or the first 8 lines contain a run of
3 or more `=` (the hash-prefixed `=` patterns the code also tests are
subsumed by the plain `={3,}` test); it depends on nothing beyond the first
10 lines, returns true for any text beginning with `/**`, and returns false
for the empty string. -/
theorem hasHeaderAtTop_spec :
    (∀ t : String, hasHeaderAtTop t = true ↔
      (t ≠ "" ∧ (containsSub (head8 t) "/**" = true ∨
        (strHasPre "#!" (jsTrim (head8 t)) = true ∧ containsSub (rest10 t) "===" = true) ∨
        containsSub (head8 t) "===" = true))) ∧
    (∀ t u : String, t ≠ "" → u ≠ "" →
      (splitLines t).take 10 = (splitLines u).take 10 →
      hasHeaderAtTop t = hasHeaderAtTop u) ∧
    (∀ r : String, hasHeaderAtTop ("/**" ++ r) = true) ∧
    hasHeaderAtTop "" = false := by
  have hchar : ∀ v : String, hasHeaderAtTop v = true ↔
      (v ≠ "" ∧ (containsSub (head8 v) "/**" = true ∨
        (strHasPre "#!" (jsTrim (head8 v)) = true ∧ containsSub (rest10 v) "===" = true) ∨
        containsSub (head8 v) "===" = true)) := by
    intro t
    by_cases h0 : t = ""
    · simp [hasHeaderAtTop, h0]
    · cases h1 : containsSub (head8 t) "/**"
      · cases h2 : strHasPre "#!" (jsTrim (head8 t))
        · cases h3 : containsSub (head8 t) "==="
          · have h4 : hashLineEqTest (head8 t) = false := by
              cases h4 : hashLineEqTest (head8 t)
              · rfl
              · exact absurd (containsSub_of_hashLineEqTest _ h4) (by simp [h3])
            simp [hasHeaderAtTop, h0, h1, h2, h3, h4]
          · simp [hasHeaderAtTop, h0, h1, h2, h3]
        · cases h3 : containsSub (rest10 t) "==="
          · have h5 : hashRunEqTest (rest10 t) = false := by
              cases h5 : hashRunEqTest (rest10 t)
              · rfl
              · exact absurd (containsSub_of_hashRunEqTest _ h5) (by simp [h3])
            cases h6 : containsSub (head8 t) "==="
            · have h7 : hashLineEqTest (head8 t) = false := by
                cases h7 : hashLineEqTest (head8 t)
                · rfl
                · exact absurd (containsSub_of_hashLineEqTest _ h7) (by simp [h6])
              simp [hasHeaderAtTop, h0, h1, h2, h3, h5, h6, h7]
            · simp [hasHeaderAtTop, h0, h1, h2, h3, h5, h6]
          · simp [hasHeaderAtTop, h0, h1, h2, h3]
      · simp [hasHeaderAtTop, h0, h1]
  refine ⟨hchar, ?_, ?_, by decide⟩
  · intro t u ht hu htu
    have h8 : (splitLines t).take 8 = (splitLines u).take 8 := by
      have := congrArg (List.take 8) htu
      simpa [List.take_take] using this
    rw [hasHeaderAtTop, hasHeaderAtTop, if_neg ht, if_neg hu]
    rw [head8, head8, rest10, rest10, h8, htu]
  · intro r
    obtain ⟨u, hu⟩ := head8_of_slashStarStar r
    have hne : ("/**" ++ r) ≠ "" := by
      intro h
      have : ("/**" ++ r).data = [] := by rw [h]
      rw [String.data_append] at this
      cases this
    have hc1 : containsSub (head8 ("/**" ++ r)) "/**" = true := by
      refine decide_eq_true ⟨[], u, ?_⟩
      rw [hu]
      rfl
    simp [hasHeaderAtTop, hne, hc1]

/-- Witness for `hasHeaderAtTop_spec` at concrete inputs: a text beginning
with `/**` is detected, and two texts agreeing on their first 10 lines get
the same answer. -/
theorem hasHeaderAtTop_spec_witness :
    hasHeaderAtTop ("/**" ++ "====\nx") = true ∧
    hasHeaderAtTop "a\nb\nc\nd\ne\nf\ng\nh\ni\nj\nK" =
      hasHeaderAtTop "a\nb\nc\nd\ne\nf\ng\nh\ni\nj\nZZ\nQ" :=
  ⟨hasHeaderAtTop_spec.2.2.1 "====\nx",
   hasHeaderAtTop_spec.2.1 "a\nb\nc\nd\ne\nf\ng\nh\ni\nj\nK"
     "a\nb\nc\nd\ne\nf\ng\nh\ni\nj\nZZ\nQ" (by decide) (by decide) (by decide)⟩

/- section: trace-shape lemmas -/

theorem insertNew_mem_iff (doc : Doc) (cfg : Config) (env : Env) (p : Prompts)
    (today : String) (s : String) :
    Event.insertAtTop s ∈ insertHeaderNew doc cfg env p today ↔
      hasHeaderAtTop doc.text = false ∧
        s = insertHeaderNewText doc cfg env p today := by
  simp only [insertHeaderNew, List.mem_append, List.mem_cons, List.mem_singleton]
  split_ifs with h1 h2 h3 h4 <;> simp_all

theorem insertLegacy_mem_iff (doc : Doc) (env : Env) (p : Prompts)
    (today : String) (s : String) :
    Event.insertAtTop s ∈ insertHeaderLegacy doc env p today ↔
      (doc.extNoDot = "c" ∨ doc.extNoDot = "h" ∨ doc.extNoDot = "hpp" ∨
        doc.extNoDot = "cpp") ∧
        s = insertHeaderLegacyText doc p today := by
  simp only [insertHeaderLegacy, List.mem_append, List.mem_cons, List.mem_singleton]
  split_ifs with h1 h2 h3 h4 <;> simp_all

theorem autoInsert_mem_iff (doc : Doc) (cfg : Config) (env : Env)
    (today : String) (s : String) :
    Event.insertAtTop s ∈ autoInsertHeaderForDocument doc cfg env today ↔
      ¬ 0 < (jsTrim doc.text).length ∧ s = autoInsertText doc cfg env today := by
  simp only [autoInsertHeaderForDocument]
  split_ifs with h1 <;> simp_all

theorem onCreate_mem_iff (doc : Doc) (cfg : Config) (env : Env) (p : Prompts)
    (today : String) (s : String) :
    Event.insertAtTop s ∈ interactiveInsertForCreatedDocument doc cfg env p today ↔
      ¬ 0 < (jsTrim doc.text).length ∧ s = onCreateText doc cfg env p today := by
  simp only [interactiveInsertForCreatedDocument, List.mem_append, List.mem_cons,
    List.mem_singleton]
  split_ifs with h1 h2 <;> simp_all

/- section: C9 -/

/-- C9: for a file with extension `py` (detected style: hash-prefixed with
shebang), every text inserted by any of the new variant's entry points
starts with the literal shebang line `#!/usr/bin/env python3` — the shebang
is the first line, before any comment-border character. -/
theorem pyShebangFirstLine (doc : Doc) (cfg : Config) (env : Env) (p : Prompts)
    (today s : String) (hext : doc.extNoDot = "py")
    (hmem : Event.insertAtTop s ∈ insertHeaderNew doc cfg env p today ∨
      Event.insertAtTop s ∈ autoInsertHeaderForDocument doc cfg env today ∨
      Event.insertAtTop s ∈ interactiveInsertForCreatedDocument doc cfg env p today) :
    ∃ r, s = "#!/usr/bin/env python3\n" ++ r := by
  rcases hmem with h | h | h
  · obtain ⟨-, rfl⟩ := (insertNew_mem_iff doc cfg env p today s).mp h
    exact ⟨makeCommentBlock doc.basenameWithExt p.description
        (jsOr p.author (authorChain cfg env)) today CStyle.hash,
      by simp [insertHeaderNewText, hext, detectStyle]⟩
  · obtain ⟨-, rfl⟩ := (autoInsert_mem_iff doc cfg env today s).mp h
    exact ⟨makeCommentBlock doc.basenameWithExt "" (authorChain cfg env) today
        CStyle.hash,
      by simp [autoInsertText, hext, detectStyle]⟩
  · obtain ⟨-, rfl⟩ := (onCreate_mem_iff doc cfg env p today s).mp h
    exact ⟨makeCommentBlock doc.basenameWithExt (jsOr p.description "")
        (jsOr (jsOr p.author (authorChain cfg env)) (authorChain cfg env)) today
        CStyle.hash,
      by simp [onCreateText, hext, detectStyle]⟩

/-- Witness for `pyShebangFirstLine` at a concrete `.py` document. -/
theorem pyShebangFirstLine_witness :
    strHasPre "#!/usr/bin/env python3\n"
      (autoInsertText ⟨"", "x.py", "x", "py"⟩ ⟨""⟩ ⟨"", ""⟩ "2025-01-02") = true := by
  obtain ⟨r, hr⟩ := pyShebangFirstLine ⟨"", "x.py", "x", "py"⟩ ⟨""⟩ ⟨"", ""⟩
    ⟨"", "", ""⟩ "2025-01-02"
    (autoInsertText ⟨"", "x.py", "x", "py"⟩ ⟨""⟩ ⟨"", ""⟩ "2025-01-02") rfl
    (Or.inr (Or.inl (by
      rw [autoInsert_mem_iff]
      exact ⟨by decide, rfl⟩)))
  rw [hr]
  exact decide_eq_true ⟨r.data, (String.data_append _ _).symm⟩

/- section: C10 -/

/-- C10: on the interactive paths, a configuration write happens only for the
key `defaultAuthor`, only with the freshly prompted author value, and only
when that value is non-empty and differs from the stored configuration
value; when the author prompt is cancelled or left empty, no configuration
write happens at all and the inserted text is the one built from the
stored/environment default author chain. -/
theorem defaultAuthorPersistence (doc : Doc) (cfg : Config) (env : Env)
    (p : Prompts) (today : String) :
    (∀ k v, Event.updateConfig k v ∈ insertHeaderNew doc cfg env p today →
      k = "defaultAuthor" ∧ v = p.author ∧ p.author ≠ "" ∧
        p.author ≠ cfg.defaultAuthor) ∧
    (∀ k v, Event.updateConfig k v ∈
        interactiveInsertForCreatedDocument doc cfg env p today →
      k = "defaultAuthor" ∧ v = p.author ∧ p.author ≠ "" ∧
        p.author ≠ cfg.defaultAuthor) ∧
    (p.author = "" →
      (insertHeaderNew doc cfg env p today).all (fun e => !e.isConfigWrite) = true ∧
      (interactiveInsertForCreatedDocument doc cfg env p today).all
        (fun e => !e.isConfigWrite) = true ∧
      (insertHeaderNew doc cfg env p today).filter Event.isInsert =
        (insertHeaderNew doc cfg env
          ⟨authorChain cfg env, p.description, p.guard⟩ today).filter
          Event.isInsert) := by
  refine ⟨?_, ?_, ?_⟩
  · intro k v h
    simp only [insertHeaderNew, List.mem_append, List.mem_cons,
      List.mem_singleton] at h
    split_ifs at h <;> simp_all
  · intro k v h
    simp only [interactiveInsertForCreatedDocument, List.mem_append,
      List.mem_cons, List.mem_singleton] at h
    split_ifs at h <;> simp_all
  · intro hpa
    have htext : insertHeaderNewText doc cfg env p today
        = insertHeaderNewText doc cfg env
            ⟨authorChain cfg env, p.description, p.guard⟩ today := by
      simp [insertHeaderNewText, hpa, jsOr]
    refine ⟨?_, ?_, ?_⟩
    · simp only [insertHeaderNew]
      split_ifs <;> simp_all [Event.isConfigWrite]
    · simp only [interactiveInsertForCreatedDocument]
      split_ifs <;> simp_all [Event.isConfigWrite]
    · simp only [insertHeaderNew, List.filter_append]
      split_ifs <;> simp_all [Event.isInsert, List.filter]

/-- Witness for `defaultAuthorPersistence`: a cancelled author prompt leaves
the configuration untouched. -/
theorem defaultAuthorPersistence_witness :
    (insertHeaderNew ⟨"", "a.c", "a", "c"⟩ ⟨"cfg"⟩ ⟨"g", "u"⟩ ⟨"", "d", ""⟩
      "2025-01-03").all (fun e => !e.isConfigWrite) = true :=
  ((defaultAuthorPersistence ⟨"", "a.c", "a", "c"⟩ ⟨"cfg"⟩ ⟨"g", "u"⟩
    ⟨"", "d", ""⟩ "2025-01-03").2.2 rfl).1

/- section: C1 -/

/-- C1 (counterexample): for the document text `/**===\nold` (which
`hasHeaderAtTop` recognizes as an existing header), the legacy variant's
`insertHeader` still emits a text insertion (it performs no header check at
all), and `autoInsertHeaderForDocument` emits no event whatsoever — in
particular no message reporting the skip. So not every entry point both
leaves the document unchanged and reports the fact. -/
theorem headerNoOp_counterexample :
    hasHeaderAtTop "/**===\nold" = true ∧
    (insertHeaderLegacy ⟨"/**===\nold", "a.c", "a", "c"⟩ ⟨"", ""⟩ ⟨"", "", ""⟩
      "2025-01-02").any Event.isInsert = true ∧
    autoInsertHeaderForDocument ⟨"/**===\nold", "a.c", "a", "c"⟩ ⟨""⟩ ⟨"", ""⟩
      "2025-01-02" = [] :=
  ⟨by decide, by decide, by decide⟩

/-- C1 (amended): when the document already carries a recognized header, the
new variant's interactive `insertHeader` inserts nothing and reports via the
message `A header already exists in this file.`; the auto and
interactive-on-create entry points skip every non-empty document (in
particular one with a header) silently, emitting no event; the legacy
variant's `insertHeader` performs no header check and always inserts for a
supported extension such as `c`. -/
theorem headerNoOp_amended (doc : Doc) (cfg : Config) (env : Env) (p : Prompts)
    (today : String) :
    (hasHeaderAtTop doc.text = true →
      (insertHeaderNew doc cfg env p today).all (fun e => !e.isInsert) = true ∧
      Event.showMessage "A header already exists in this file." ∈
        insertHeaderNew doc cfg env p today) ∧
    (jsTrim doc.text ≠ "" →
      autoInsertHeaderForDocument doc cfg env today = [] ∧
      interactiveInsertForCreatedDocument doc cfg env p today = []) ∧
    (doc.extNoDot = "c" →
      (insertHeaderLegacy doc env p today).any Event.isInsert = true) := by
  refine ⟨?_, ?_, ?_⟩
  · intro hh
    constructor
    · simp only [insertHeaderNew]
      split_ifs <;> simp_all [Event.isInsert]
    · simp [insertHeaderNew, hh]
  · intro hne
    have hlen : 0 < (jsTrim doc.text).length := by
      have hd : (jsTrim doc.text).data ≠ [] := by
        intro h
        exact hne (String.ext (by rw [h]))
      exact List.length_pos.mpr hd
    constructor
    · simp [autoInsertHeaderForDocument, hlen]
    · simp [interactiveInsertForCreatedDocument, hlen]
  · intro hc
    simp [insertHeaderLegacy, hc, Event.isInsert]

/-- Witness for `headerNoOp_amended` at a concrete header-bearing document. -/
theorem headerNoOp_amended_witness :
    (insertHeaderNew ⟨"/**===\nold", "a.c", "a", "c"⟩ ⟨""⟩ ⟨"", ""⟩
      ⟨"A", "d", ""⟩ "2025-01-02").all (fun e => !e.isInsert) = true :=
  ((headerNoOp_amended ⟨"/**===\nold", "a.c", "a", "c"⟩ ⟨""⟩ ⟨"", ""⟩
    ⟨"A", "d", ""⟩ "2025-01-02").1 (by decide)).1

/- section: C3 -/

/-- C3 (counterexample): in the new variant's `insertHeader`, for a document
whose text already carries a header, the trace still begins with the author
prompt — the author/description prompts are shown before the
`hasHeaderAtTop` short-circuit, so it is not the case that no prompt occurs
when the document already has a header. -/
theorem promptOrder_counterexample :
    hasHeaderAtTop "/**===\nold" = true ∧
    (insertHeaderNew ⟨"/**===\nold", "a.c", "a", "c"⟩ ⟨""⟩ ⟨"", ""⟩
      ⟨"A", "d", ""⟩ "2025-01-02").head? = some (Event.promptAuthor "") ∧
    (insertHeaderNew ⟨"/**===\nold", "a.c", "a", "c"⟩ ⟨""⟩ ⟨"", ""⟩
      ⟨"A", "d", ""⟩ "2025-01-02").any Event.isPromptEvent = true :=
  ⟨by decide, by decide, by decide⟩

/-- C3 (amended): the auto and interactive-on-create orchestrators do
short-circuit on a non-empty document before any prompt (their traces are
empty then, and the auto path never prompts at all); the new variant's
interactive `insertHeader`, however, always begins with the author and
description prompts, and only afterwards applies the `hasHeaderAtTop`
short-circuit — which still prevents any insertion. -/
theorem promptOrder_amended (doc : Doc) (cfg : Config) (env : Env) (p : Prompts)
    (today : String) :
    (jsTrim doc.text ≠ "" →
      interactiveInsertForCreatedDocument doc cfg env p today = [] ∧
      autoInsertHeaderForDocument doc cfg env today = []) ∧
    ((autoInsertHeaderForDocument doc cfg env today).all
      (fun e => !e.isPromptEvent) = true) ∧
    ((insertHeaderNew doc cfg env p today).take 2 =
      [Event.promptAuthor (authorChain cfg env), Event.promptDescription]) ∧
    (hasHeaderAtTop doc.text = true →
      (insertHeaderNew doc cfg env p today).all (fun e => !e.isInsert) = true) := by
  refine ⟨?_, ?_, ?_, ?_⟩
  · intro hne
    have hlen : 0 < (jsTrim doc.text).length := by
      have hd : (jsTrim doc.text).data ≠ [] := by
        intro h
        exact hne (String.ext (by rw [h]))
      exact List.length_pos.mpr hd
    exact ⟨by simp [interactiveInsertForCreatedDocument, hlen],
      by simp [autoInsertHeaderForDocument, hlen]⟩
  · simp only [autoInsertHeaderForDocument]
    split_ifs <;> simp [Event.isPromptEvent]
  · simp [insertHeaderNew, List.take]
  · intro hh
    simp only [insertHeaderNew]
    split_ifs <;> simp_all [Event.isInsert]

/-- Witness for `promptOrder_amended` at a concrete non-empty document. -/
theorem promptOrder_amended_witness :
    interactiveInsertForCreatedDocument ⟨"x", "a.c", "a", "c"⟩ ⟨""⟩ ⟨"", ""⟩
      ⟨"A", "d", ""⟩ "2025-01-02" = [] :=
  ((promptOrder_amended ⟨"x", "a.c", "a", "c"⟩ ⟨""⟩ ⟨"", ""⟩ ⟨"A", "d", ""⟩
    "2025-01-02").1 (by decide)).1

/- section: C2 -/

/-- The content appended for `Game.cpp`: include line, blank line, and
empty-bodied constructor and destructor definitions. -/
def cppGameText : String :=
  "#include \"Game.hpp\"\n\nGame::Game()\n\x7b\n\x7d\n\nGame::~Game()\n\x7b\n\x7d\n"

theorem strHasSuf_of_append (a b : String) : strHasSuf b (a ++ b) = true :=
  decide_eq_true ⟨a.data, (String.data_append a b).symm⟩

theorem containsSub_append_right {b pat : String} (a : String)
    (h : containsSub b pat = true) : containsSub (a ++ b) pat = true := by
  obtain ⟨s, t, hst⟩ := of_decide_eq_true h
  refine decide_eq_true ⟨a.data ++ s, t, ?_⟩
  rw [String.data_append, ← hst]
  simp

theorem strHasPre_append_firstLine (hd : String) (rest : List String)
    (x pre : String) (hpre : ∃ w, hd.data = pre.data ++ w) :
    strHasPre pre (joinLines (hd :: rest) ++ x) = true := by
  obtain ⟨w, hw⟩ := hpre
  obtain ⟨u, hu⟩ := joinLines_cons_data hd rest
  refine decide_eq_true ⟨w ++ u ++ x.data, ?_⟩
  rw [String.data_append, hu, hw]
  simp [List.append_assoc]

theorem strHasPre_block_comment (f d a dt x : String) :
    strHasPre "/**" (makeCommentBlock f d a dt CStyle.block ++ x) = true := by
  rw [makeCommentBlock, strAppendAssoc]
  exact strHasPre_append_firstLine ("/**" ++ eqBorderTop)
    ((midLines f d a dt).map (fun l => " * " ++ l)
      ++ [" *" ++ eqBorderBot ++ "**/"])
    ("\n\n" ++ x) "/**" ⟨eqBorderTop.data, String.data_append _ _⟩

theorem strHasPre_legacy_comment (f d a dt x : String) :
    strHasPre "/**" (makeCommentBlockLegacy f d a dt ++ x) = true := by
  rw [makeCommentBlockLegacy, strAppendAssoc]
  exact strHasPre_append_firstLine ("/**" ++ eqBorderTop)
    (midLinesLegacy f d a dt ++ [" *" ++ eqBorderBot ++ "**/"])
    ("\n\n" ++ x) "/**" ⟨eqBorderTop.data, String.data_append _ _⟩

/-- C2 (counterexample): for basename `Game`, extension `cpp`, the text the
new variant's `insertHeader` inserts does not start with
`#include "Game.hpp"` — it starts with the comment block (`/**`). -/
theorem cppStart_counterexample :
    (firstInserted (insertHeaderNew ⟨"", "Game.cpp", "Game", "cpp"⟩ ⟨""⟩ ⟨"", ""⟩
      ⟨"A", "d", ""⟩ "2025-10-22")).map
        (fun s => strHasPre "#include \"Game.hpp\"" s) = some false ∧
    (firstInserted (insertHeaderNew ⟨"", "Game.cpp", "Game", "cpp"⟩ ⟨""⟩ ⟨"", ""⟩
      ⟨"A", "d", ""⟩ "2025-10-22")).map
        (fun s => strHasPre "/**" s) = some true :=
  ⟨by decide, by decide⟩

/-- C2 (amended): for basename `Game`, extension `cpp`, the text inserted by
any entry point (both variants) ends with the cpp block — the line
`#include "Game.hpp"` followed by empty-bodied `Game::Game()` and
`Game::~Game()` definitions — and contains all of those, while it starts
with the `/**` comment block rather than with the include line. -/
theorem cppGen_amended (cfg : Config) (env : Env) (p : Prompts)
    (today txt s : String)
    (hmem :
      Event.insertAtTop s ∈
          insertHeaderNew ⟨txt, "Game.cpp", "Game", "cpp"⟩ cfg env p today ∨
        Event.insertAtTop s ∈
          autoInsertHeaderForDocument ⟨txt, "Game.cpp", "Game", "cpp"⟩ cfg env
            today ∨
        Event.insertAtTop s ∈
          interactiveInsertForCreatedDocument ⟨txt, "Game.cpp", "Game", "cpp"⟩
            cfg env p today ∨
        Event.insertAtTop s ∈
          insertHeaderLegacy ⟨txt, "Game.cpp", "Game", "cpp"⟩ env p today) :
    strHasSuf cppGameText s = true ∧
    containsSub s "#include \"Game.hpp\"" = true ∧
    containsSub s "Game::Game()\n\x7b\n\x7d" = true ∧
    containsSub s "Game::~Game()\n\x7b\n\x7d" = true ∧
    strHasPre "/**" s = true := by
  have hcpp : cppAppend "Game" = cppGameText := by decide
  rcases hmem with h | h | h | h
  · obtain ⟨-, rfl⟩ := (insertNew_mem_iff _ _ _ _ _ _).mp h
    have hs : insertHeaderNewText ⟨txt, "Game.cpp", "Game", "cpp"⟩ cfg env p today
        = makeCommentBlock "Game.cpp" p.description
            (jsOr p.author (authorChain cfg env)) today CStyle.block
          ++ cppGameText := by
      rw [← hcpp]
      simp [insertHeaderNewText, detectStyle]
    rw [hs]
    exact ⟨strHasSuf_of_append _ _, containsSub_append_right _ (by decide),
      containsSub_append_right _ (by decide), containsSub_append_right _ (by decide),
      strHasPre_block_comment _ _ _ _ _⟩
  · obtain ⟨-, rfl⟩ := (autoInsert_mem_iff _ _ _ _ _).mp h
    have hs : autoInsertText ⟨txt, "Game.cpp", "Game", "cpp"⟩ cfg env today
        = makeCommentBlock "Game.cpp" "" (authorChain cfg env) today CStyle.block
          ++ cppGameText := by
      rw [← hcpp]
      simp [autoInsertText, detectStyle]
    rw [hs]
    exact ⟨strHasSuf_of_append _ _, containsSub_append_right _ (by decide),
      containsSub_append_right _ (by decide), containsSub_append_right _ (by decide),
      strHasPre_block_comment _ _ _ _ _⟩
  · obtain ⟨-, rfl⟩ := (onCreate_mem_iff _ _ _ _ _ _).mp h
    have hs : onCreateText ⟨txt, "Game.cpp", "Game", "cpp"⟩ cfg env p today
        = makeCommentBlock "Game.cpp" (jsOr p.description "")
            (jsOr (jsOr p.author (authorChain cfg env)) (authorChain cfg env))
            today CStyle.block
          ++ cppGameText := by
      rw [← hcpp]
      simp [onCreateText, detectStyle]
    rw [hs]
    exact ⟨strHasSuf_of_append _ _, containsSub_append_right _ (by decide),
      containsSub_append_right _ (by decide), containsSub_append_right _ (by decide),
      strHasPre_block_comment _ _ _ _ _⟩
  · obtain ⟨-, rfl⟩ := (insertLegacy_mem_iff _ _ _ _ _).mp h
    have hs : insertHeaderLegacyText ⟨txt, "Game.cpp", "Game", "cpp"⟩ p today
        = makeCommentBlockLegacy "Game.cpp" p.description p.author today
          ++ cppGameText := by
      rw [← hcpp]
      simp [insertHeaderLegacyText]
    rw [hs]
    exact ⟨strHasSuf_of_append _ _, containsSub_append_right _ (by decide),
      containsSub_append_right _ (by decide), containsSub_append_right _ (by decide),
      strHasPre_legacy_comment _ _ _ _ _⟩

/-- Witness for `cppGen_amended` at a concrete `Game.cpp` invocation. -/
theorem cppGen_amended_witness :
    strHasSuf cppGameText
      (autoInsertText ⟨"", "Game.cpp", "Game", "cpp"⟩ ⟨""⟩ ⟨"", ""⟩ "2025-10-22")
      = true :=
  (cppGen_amended ⟨""⟩ ⟨"", ""⟩ ⟨"", "", ""⟩ "2025-10-22" ""
    (autoInsertText ⟨"", "Game.cpp", "Game", "cpp"⟩ ⟨""⟩ ⟨"", ""⟩ "2025-10-22")
    (Or.inr (Or.inl (by
      rw [autoInsert_mem_iff]
      exact ⟨by decide, rfl⟩)))).1
